import Mathlib

/-!
# Verification of the qoc core excerpt

A shallow embedding, in Lean 4, of the three source modules of the `qoc`
excerpt:

* `qoc/standard/costs/forbidstates.py` — the `ForbidStates` cost term;
* `qoc/standard/constants.py` — Pauli constants, creation/annihilation
  operators, and the `get_eij` unit-matrix generator (built on `jax.numpy`);
* `qoc/util/extend.py` — the `ans_jacobian` differentiation utility
  (built on `autograd`).

Column-vector quantum states (`d×1` numpy arrays) are embedded as `List ℂ`
of their entries; a nested `forbidden_states` array is a `List` of per-state
`List`s of such vectors.  Floating-point numbers are modelled as real
numbers.  Matrices of `constants.py` are `Matrix (Fin n) (Fin n) ℂ`.
-/

open Matrix

namespace Qoc

/-- Modelled from the spec: `conjugate_transpose` (imported by
`forbidstates.py` from `qoc.standard.functions`, which is outside the
excerpt) is "transpose of a matrix with each entry complex-conjugated";
on a `d×1` column state it yields the `1×d` row of conjugated entries. -/
def conjugate_transpose (v : List ℂ) : List ℂ := v.map (starRingEnd ℂ)

/-- `anp.matmul(row, col)[0, 0]` for a `1×d` row and a `d×1` column:
the single scalar entry of the `1×1` matrix product. -/
def matmul00 (row col : List ℂ) : ℂ := (List.zipWith (· * ·) row col).sum

/-- `anp.square(anp.abs(z))`: the squared magnitude of a complex scalar. -/
noncomputable def sqAbs (z : ℂ) : ℝ := (Complex.abs z) ^ 2

/-- The fields of a `ForbidStates` instance, as stored by
`ForbidStates.__init__` (the `cost_multiplier` field comes from the
`Cost` base class, which only stores it).  The zero-valued
`dcost_dparams` closure is not needed by any claim and is omitted. -/
structure ForbidStates where
  cost_multiplier : ℝ
  forbidden_states_dagger : List (List (List ℂ))
  state_normalization_constants : List ℕ
  step_normalization_constant : ℕ
  total_state_normalization_constant : ℕ

/-- `ForbidStates.__init__(forbidden_states, step_count, cost_multiplier)`:
daggers every forbidden state, records the per-evolving-state forbidden
counts, the step count and the number of evolving states.  The source
performs no validation, so construction is a total function. -/
def ForbidStates.init (forbidden_states : List (List (List ℂ)))
    (step_count : ℕ) (cost_multiplier : ℝ) : ForbidStates where
  cost_multiplier := cost_multiplier
  forbidden_states_dagger :=
    forbidden_states.map (fun state_forbidden_states =>
      state_forbidden_states.map conjugate_transpose)
  state_normalization_constants :=
    forbidden_states.map (fun state_forbidden_states =>
      state_forbidden_states.length)
  step_normalization_constant := step_count
  total_state_normalization_constant := forbidden_states.length

/-- `ForbidStates.cost(params, states, step)`, line for line.  The outer
`for i, state_forbidden_states_dagger in enumerate(...)` loop is a fold
over the row indices; the inner loop's body is the source's
`state_cost = cost + anp.square(anp.abs(anp.matmul(...)[0,0]))`, which
rebinds `state_cost` from the *outer* accumulator `cost` on every
iteration (it does not accumulate into `state_cost`).  `params` and
`step` are accepted at any type, as the body never inspects them. -/
noncomputable def ForbidStates.cost {α β : Type} (fs : ForbidStates)
    (params : α) (states : List (List ℂ)) (step : β) : ℝ :=
  let c : ℝ :=
    (List.range fs.forbidden_states_dagger.length).foldl
      (fun cost i =>
        let state := states.getD i []
        let state_forbidden_states_dagger := fs.forbidden_states_dagger.getD i []
        let state_cost := state_forbidden_states_dagger.foldl
          (fun _ forbidden_state_dagger =>
            cost + sqAbs (matmul00 forbidden_state_dagger state)) 0
        cost + state_cost / (fs.state_normalization_constants.getD i 0 : ℝ)) 0
  let c := c / ((fs.total_state_normalization_constant : ℝ)
                  * (fs.step_normalization_constant : ℝ))
  fs.cost_multiplier * c

/-- Modelled from the spec's words for claim C1 (the formula the spec
states, kept separate from the source's `ForbidStates.cost` so the two
can be compared): for each evolving state `i`, sum the squared
inner-product magnitudes over all of its forbidden states `j` and divide
by their count; sum over `i`; divide by (evolving-state count ×
step_count); multiply by `cost_multiplier`. -/
noncomputable def cost_spec_formula (forbidden_states : List (List (List ℂ)))
    (states : List (List ℂ)) (step_count : ℕ) (cost_multiplier : ℝ) : ℝ :=
  let c : ℝ :=
    (List.range forbidden_states.length).foldl
      (fun acc i =>
        let fsl := forbidden_states.getD i []
        acc + (fsl.foldl (fun s f =>
            s + sqAbs (matmul00 (conjugate_transpose f) (states.getD i []))) 0)
          / (fsl.length : ℝ)) 0
  cost_multiplier * (c / ((forbidden_states.length : ℝ) * (step_count : ℝ)))

/-- The quantity `ForbidStates.cost` actually computes, written directly
on the construction inputs: for each evolving state `i`, the inner loop
leaves `state_cost` equal to the running total plus the squared overlap
with the *last* forbidden state only (0 when the list is empty), and that
is what is divided by the per-state count. -/
noncomputable def cost_actual_formula (forbidden_states : List (List (List ℂ)))
    (states : List (List ℂ)) (step_count : ℕ) (cost_multiplier : ℝ) : ℝ :=
  let c : ℝ :=
    (List.range forbidden_states.length).foldl
      (fun acc i =>
        let fsl := forbidden_states.getD i []
        let state_cost : ℝ :=
          match fsl.getLast? with
          | none => 0
          | some f => acc + sqAbs (matmul00 (conjugate_transpose f) (states.getD i []))
        acc + state_cost / (fsl.length : ℝ)) 0
  cost_multiplier * (c / ((forbidden_states.length : ℝ) * (step_count : ℝ)))

/-! ### `qoc/standard/constants.py` -/

def SIGMA_X : Matrix (Fin 2) (Fin 2) ℂ := !![0, 1; 1, 0]

def SIGMA_Y : Matrix (Fin 2) (Fin 2) ℂ := !![0, -Complex.I; Complex.I, 0]

def SIGMA_Z : Matrix (Fin 2) (Fin 2) ℂ := !![1, 0; 0, -1]

def SIGMA_PLUS : Matrix (Fin 2) (Fin 2) ℂ := !![0, 2; 0, 0]

def SIGMA_MINUS : Matrix (Fin 2) (Fin 2) ℂ := !![0, 0; 2, 0]

/-- `get_creation_operator(size)`:
`jnp.diag(jnp.sqrt(jnp.arange(1, size)), k=-1)` — the entry at
`(c + 1, c)` (one sub-diagonal below the main diagonal) is
`sqrt(c + 1)` for `c = 0 .. size-2`, everything else `0`. -/
noncomputable def get_creation_operator (size : ℕ) :
    Matrix (Fin size) (Fin size) ℂ :=
  Matrix.of fun r c =>
    if (r : ℕ) = (c : ℕ) + 1 then ((Real.sqrt ((c : ℕ) + 1) : ℝ) : ℂ) else 0

/-- `get_annihilation_operator(size)`:
`jnp.diag(jnp.sqrt(jnp.arange(1, size)), k=1)` — the entry at
`(r, r + 1)` (one super-diagonal above the main diagonal) is
`sqrt(r + 1)` for `r = 0 .. size-2`, everything else `0`. -/
noncomputable def get_annihilation_operator (size : ℕ) :
    Matrix (Fin size) (Fin size) ℂ :=
  Matrix.of fun r c =>
    if (c : ℕ) = (r : ℕ) + 1 then ((Real.sqrt ((r : ℕ) + 1) : ℝ) : ℂ) else 0

/-- `jnp.zeros((size, size), dtype=jnp.complex64)`. -/
def jnp_zeros (size : ℕ) : Matrix (Fin size) (Fin size) ℂ := 0

/-- In-place item assignment `a[i, j] = v` on a `jax.numpy` array.
JAX arrays are immutable and their `__setitem__` unconditionally raises
`TypeError`, for every index and value. -/
def jax_setitem {size : ℕ} (a : Matrix (Fin size) (Fin size) ℂ)
    (i j : ℕ) (v : ℂ) : Except String (Matrix (Fin size) (Fin size) ℂ) :=
  Except.error
    "TypeError: JAX arrays are immutable and do not support in-place item assignment"

/-- `get_eij(i, j, size)` as the source writes it: allocate
`jnp.zeros((size, size))` as `eij`, perform `eij[i, j] = 1`, return the
result.  The item assignment is a `jax.numpy` in-place mutation. -/
def get_eij (i j size : ℕ) : Except String (Matrix (Fin size) (Fin size) ℂ) :=
  let eij := jnp_zeros size
  jax_setitem eij i j 1

/-- Modelled from the spec: `unit_matrix(i, j, size)` is the "zero
matrix except a `1` at position `(i, j)`" that `get_eij`'s docstring
promises (the matrix `get_eij` never manages to return). -/
def unit_matrix (i j size : ℕ) : Matrix (Fin size) (Fin size) ℂ :=
  Matrix.of fun r c => if (r : ℕ) = i ∧ (c : ℕ) = j then 1 else 0

/-! ### `qoc/util/extend.py` -/

/-- A numpy ndarray over real scalars: a shape together with the
row-major flattened data. -/
structure NDArray where
  shape : List ℕ
  data : List ℝ

/-- The one-hot flat vector of length `n` with the `1` at index `i`. -/
def basisVec (n i : ℕ) : List ℝ :=
  (List.range n).map (fun j => if j = i then 1 else 0)

/-- `vspace(ans).standard_basis()`: the one-hot arrays of the output's
vector space, enumerated in flat-index order. -/
def standard_basis (shape : List ℕ) : List NDArray :=
  (List.range shape.prod).map (fun i => ⟨shape, basisVec shape.prod i⟩)

/-- `ans_jacobian(function, argnum)` from `extend.py`, after
`unary_to_nary` has bound the differentiated argument's value to the
(misleadingly named) `argnum` parameter.  autograd's `_make_vjp` is
external library code, so it is taken as an oracle argument `make_vjp`
returning the vector-Jacobian-product closure and the raw output value;
`vspace(ans).shape` and `vspace(argnum).shape` are the two arrays'
shapes, and `np.reshape(np.stack(grads), jacobian_shape)` stacks the
per-basis-vector gradients along a new leading axis and reinterprets the
flat data under the declared shape `ans.shape ++ x.shape`. -/
def ans_jacobian
    (make_vjp : (NDArray → NDArray) → NDArray → ((NDArray → NDArray) × NDArray))
    (function : NDArray → NDArray) (x : NDArray) : NDArray × NDArray :=
  let va := make_vjp function x
  let vjp := va.1
  let ans := va.2
  let jacobian_shape := ans.shape ++ x.shape
  let grads := (standard_basis ans.shape).map vjp
  (ans, ⟨jacobian_shape, (grads.map NDArray.data).flatten⟩)

/-- Elementwise squaring `f(x) = x²`, the reference differentiable
function used to witness `ans_jacobian`. -/
def sqElem (v : NDArray) : NDArray := ⟨v.shape, v.data.map (fun t => t * t)⟩

/-- The exact reverse-mode vector-Jacobian product of `sqElem` at `x`:
`v ↦ 2 x ⊙ v`. -/
def sqVjp (x : NDArray) : NDArray → NDArray :=
  fun v => ⟨x.shape, List.zipWith (fun xe ve => 2 * xe * ve) x.data v.data⟩

/-- An oracle `make_vjp` that is correct for `sqElem`. -/
def sqMakeVjp :
    (NDArray → NDArray) → NDArray → ((NDArray → NDArray) × NDArray) :=
  fun f x => (sqVjp x, f x)

/-- The analytic Jacobian rows of `sqElem` at the witness point
`[3, -2]`: the diagonal matrix `diag(6, -4)`, row by row. -/
def sqJacobianRow : ℕ → NDArray :=
  fun i => if i = 0 then ⟨[2], [6, 0]⟩ else ⟨[2], [0, -4]⟩

/-! ### Helper lemmas -/

lemma sqAbs_eq (z : ℂ) : sqAbs z = z.re ^ 2 + z.im ^ 2 := by
  simp [sqAbs, Complex.sq_abs, Complex.normSq_apply]
  ring

lemma foldl_congr_mem {α β : Type*} {l : List α} {f g : β → α → β}
    (h : ∀ a ∈ l, ∀ b, f b a = g b a) :
    ∀ b, l.foldl f b = l.foldl g b := by
  induction l with
  | nil => intro b; rfl
  | cons x xs ih =>
    intro b
    rw [List.foldl_cons, List.foldl_cons, h x (List.mem_cons_self x xs)]
    exact ih (fun a ha b => h a (List.mem_cons_of_mem x ha) b) _

lemma foldl_discard_eq_getLast {α : Type*} (l : List α) (g : α → ℝ) (b : ℝ) :
    l.foldl (fun _ a => g a) b
      = (match l.getLast? with | none => b | some a => g a) := by
  induction l generalizing b with
  | nil => rfl
  | cons x xs ih =>
    cases xs with
    | nil => simp [List.foldl]
    | cons y ys => simpa [List.foldl] using ih (g x)

lemma foldl_zero_of_forall {α : Type*} {l : List α} {f : ℝ → α → ℝ}
    (h : ∀ a ∈ l, f 0 a = 0) : l.foldl f 0 = 0 := by
  induction l with
  | nil => rfl
  | cons x xs ih =>
    rw [List.foldl_cons, h x (List.mem_cons_self x xs)]
    exact ih (fun a ha => h a (List.mem_cons_of_mem x ha))

/-! ### Claims about `ForbidStates.cost` that need no computation -/

/-- C10: `ForbidStates.cost` ignores its `params` and `step` arguments
entirely: for any two pairs of such arguments — at any types, so in
particular for Python's `None` — the returned value is the same. -/
theorem cost_ignores_params_and_step {α α' β β' : Type} (fs : ForbidStates)
    (params1 : α) (params2 : α') (states : List (List ℂ))
    (step1 : β) (step2 : β') :
    fs.cost params1 states step1 = fs.cost params2 states step2 := rfl

/-- C8: the value returned by `ForbidStates.cost` is linear in the
`cost_multiplier` passed at construction: scaling the multiplier by `k`
scales the cost by exactly `k`, all other inputs equal. -/
theorem cost_linear_in_multiplier {α β : Type}
    (forbidden_states : List (List (List ℂ))) (step_count : ℕ) (cm k : ℝ)
    (params : α) (states : List (List ℂ)) (step : β) :
    (ForbidStates.init forbidden_states step_count (k * cm)).cost params states step
      = k * (ForbidStates.init forbidden_states step_count cm).cost params states step := by
  simp only [ForbidStates.cost, ForbidStates.init]
  ring

lemma cost_init_eq_actual {α β : Type}
    (forbidden_states : List (List (List ℂ))) (step_count : ℕ) (cm : ℝ)
    (params : α) (states : List (List ℂ)) (step : β) :
    (ForbidStates.init forbidden_states step_count cm).cost params states step
      = cost_actual_formula forbidden_states states step_count cm := by
  simp only [ForbidStates.cost, ForbidStates.init, cost_actual_formula,
    List.length_map]
  congr 2
  apply foldl_congr_mem
  intro i hi b
  have hi' : i < forbidden_states.length := List.mem_range.mp hi
  rw [List.getD_eq_getElem
      (forbidden_states.map (fun state_forbidden_states =>
        List.map conjugate_transpose state_forbidden_states)) []
      (by simpa using hi'),
    List.getElem_map,
    List.getD_eq_getElem
      (forbidden_states.map (fun state_forbidden_states =>
        state_forbidden_states.length)) 0
      (by simpa using hi'),
    List.getElem_map,
    List.getD_eq_getElem forbidden_states [] hi']
  rw [foldl_discard_eq_getLast, List.getLast?_map]
  cases forbidden_states[i].getLast? with
  | none => rfl
  | some f => rfl

/-- C1 (amended): what `ForbidStates.cost` returns, for every input, is
`cost_actual_formula`: per evolving state the division is applied to the
running total plus the squared overlap with the last forbidden state
only, not to the sum over all forbidden states. -/
theorem cost_eq_actual_formula {α β : Type}
    (forbidden_states : List (List (List ℂ))) (step_count : ℕ) (cm : ℝ)
    (params : α) (states : List (List ℂ)) (step : β) :
    (ForbidStates.init forbidden_states step_count cm).cost params states step
      = cost_actual_formula forbidden_states states step_count cm :=
  cost_init_eq_actual forbidden_states step_count cm params states step

/-- C7: when every forbidden state is orthogonal to its corresponding
evolving state (all `⟨forbidden_state_j | states[i]⟩` vanish) and every
evolving state has at least one forbidden state, `ForbidStates.cost`
returns exactly zero, for any step count and multiplier. -/
theorem cost_zero_of_orthogonal {α β : Type}
    (forbidden_states : List (List (List ℂ))) (states : List (List ℂ))
    (step_count : ℕ) (cm : ℝ) (params : α) (step : β)
    (hne : ∀ l ∈ forbidden_states, l ≠ [])
    (horth : ∀ i, ∀ f ∈ forbidden_states.getD i [],
      matmul00 (conjugate_transpose f) (states.getD i []) = 0) :
    (ForbidStates.init forbidden_states step_count cm).cost params states step = 0 := by
  rw [cost_init_eq_actual]
  simp only [cost_actual_formula]
  rw [foldl_zero_of_forall]
  · simp
  · intro i _
    cases h : (forbidden_states.getD i []).getLast? with
    | none => simp [h]
    | some f =>
      have hf : f ∈ forbidden_states.getD i [] := List.mem_of_getLast?_eq_some h
      simp [horth i f hf, sqAbs]
      exact Or.inl (by rw [← List.getD_eq_getElem?_getD]; exact horth i f hf)

/-- C1 (counterexample): one evolving state `[1]` with forbidden states
`[1]` and `[0]`, `step_count = 1`, `cost_multiplier = 1`.  The spec's
formula gives `((1 + 0)/2) / (1·1) = 1/2`, but `ForbidStates.cost`
returns `0`: the inner loop overwrites `state_cost` on each iteration,
so only the last forbidden state (overlap `0`) is counted. -/
theorem cost_differs_from_spec_formula :
    (ForbidStates.init [[[(1 : ℂ)], [0]]] 1 1).cost () [[(1 : ℂ)]] ()
      ≠ cost_spec_formula [[[(1 : ℂ)], [0]]] [[(1 : ℂ)]] 1 1 := by
  have h1 : (ForbidStates.init [[[(1 : ℂ)], [0]]] 1 1).cost () [[(1 : ℂ)]] () = 0 := by
    simp [ForbidStates.cost, ForbidStates.init, conjugate_transpose, matmul00,
      sqAbs, List.range_succ]
  have h2 : cost_spec_formula [[[(1 : ℂ)], [0]]] [[(1 : ℂ)]] 1 1 = 1 / 2 := by
    simp [cost_spec_formula, conjugate_transpose, matmul00, sqAbs, List.range_succ]
  rw [h1, h2]
  norm_num

/-- C2: the module's reference scenario `_test`: evolving states
`[1,0]ᵗ` and `[0,1]ᵗ`, forbidden lists `{[1,0]ᵗ, [1,1]ᵗ/√2}` and
`{[1,1]ᵗ/√2, [i,i]ᵗ/√2}`, `step_count = 10`, default multiplier `1`.
`ForbidStates.cost` returns exactly `5/160 = 0.03125`. -/
theorem test_cost_value :
    (ForbidStates.init
      [[[(1 : ℂ), 0], [((Real.sqrt 2 : ℝ) : ℂ)⁻¹, ((Real.sqrt 2 : ℝ) : ℂ)⁻¹]],
       [[((Real.sqrt 2 : ℝ) : ℂ)⁻¹, ((Real.sqrt 2 : ℝ) : ℂ)⁻¹],
        [Complex.I * ((Real.sqrt 2 : ℝ) : ℂ)⁻¹, Complex.I * ((Real.sqrt 2 : ℝ) : ℂ)⁻¹]]]
      10 1).cost ()
      [[(1 : ℂ), 0], [(0 : ℂ), 1]] () = 5 / 160 := by
  have hs : Real.sqrt 2 ^ 2 = 2 := Real.sq_sqrt (by norm_num)
  simp [ForbidStates.cost, ForbidStates.init, conjugate_transpose, matmul00,
    sqAbs_eq, List.range_succ]
  norm_num [div_pow, hs]

/-- Witness for C7: evolving state `[1,0]ᵗ` with the single forbidden
state `[0,1]ᵗ` (orthogonal), `step_count = 3`, multiplier `2`. -/
theorem cost_zero_of_orthogonal_witness :
    (ForbidStates.init [[[(0 : ℂ), 1]]] 3 2).cost () [[(1 : ℂ), 0]] () = 0 := by
  apply cost_zero_of_orthogonal
  · intro l hl
    simp only [List.mem_singleton] at hl
    subst hl
    simp
  · intro i f hf
    match i with
    | 0 =>
      simp only [List.getD_cons_zero, List.mem_singleton] at hf
      subst hf
      simp [matmul00, conjugate_transpose]
    | n + 1 =>
      simp at hf

/-- C5 (counterexample): constructing a `ForbidStates` whose single
evolving state has zero forbidden states does not fail: the source's
`__init__` has no failure path for this input (no validation at all),
and the stored per-state normalization constant is `0` — so `cost`'s
per-state division later divides by zero (`0/0`, a NaN in numpy)
instead of the construction being rejected. -/
theorem init_accepts_empty_forbidden_list :
    (ForbidStates.init [([] : List (List ℂ))] 5 1).state_normalization_constants
      = [0] := rfl

/-- C5 (amended): for every `forbidden_states` whose entry at index `i`
is empty, construction succeeds and stores normalization constant `0`
at index `i`; nothing guarantees the constant is `≥ 1` and the division
by zero is only reached during `cost` evaluation. -/
theorem init_stores_zero_normalization_constant
    (forbidden_states : List (List (List ℂ))) (step_count : ℕ) (cm : ℝ) (i : ℕ)
    (h1 : i < forbidden_states.length)
    (h2 : forbidden_states.getD i [[(1 : ℂ)]] = []) :
    (ForbidStates.init forbidden_states step_count cm).state_normalization_constants.getD i 1
      = 0 := by
  simp only [ForbidStates.init]
  rw [List.getD_eq_getElem _ _ (by simpa using h1), List.getElem_map]
  rw [List.getD_eq_getElem _ _ h1] at h2
  simp [h2]

/-- Witness for C5 (amended), at the concrete input of the
counterexample. -/
theorem init_stores_zero_normalization_constant_witness :
    (ForbidStates.init [([] : List (List ℂ))] 5 1).state_normalization_constants.getD 0 1
      = 0 :=
  init_stores_zero_normalization_constant [([] : List (List ℂ))] 5 1 0
    (by simp) (by simp)

/-- C9: `SIGMA_PLUS = SIGMA_X + i·SIGMA_Y` and
`SIGMA_MINUS = SIGMA_X − i·SIGMA_Y`, as exact entrywise equalities of
2×2 complex matrices. -/
theorem sigma_plus_minus_combinations :
    SIGMA_PLUS = SIGMA_X + Complex.I • SIGMA_Y ∧
    SIGMA_MINUS = SIGMA_X - Complex.I • SIGMA_Y := by
  constructor <;>
    · ext r c
      fin_cases r <;> fin_cases c <;>
        norm_num [SIGMA_PLUS, SIGMA_MINUS, SIGMA_X, SIGMA_Y, Complex.I_mul_I]

/-- C6: for every `size ≥ 2` (in fact for every size), the creation
operator is the conjugate transpose of the annihilation operator: the
`sqrt(k)` entries sit one sub-diagonal below the main diagonal for
creation and one super-diagonal above it for annihilation. -/
theorem creation_eq_conjTranspose_annihilation (size : ℕ) (h : 2 ≤ size) :
    get_creation_operator size = (get_annihilation_operator size)ᴴ := by
  ext r c
  simp only [get_creation_operator, get_annihilation_operator,
    Matrix.conjTranspose_apply, Matrix.of_apply]
  split_ifs
  · exact (Complex.conj_ofReal _).symm
  · simp

/-- Witness for C6 at `size = 2`. -/
theorem creation_eq_conjTranspose_annihilation_witness :
    get_creation_operator 2 = (get_annihilation_operator 2)ᴴ :=
  creation_eq_conjTranspose_annihilation 2 (by norm_num)

/-- C4 (code evaluated at the failing input, and at every other input):
`get_eij` performs an in-place item assignment on a `jax.numpy` array,
which raises `TypeError` unconditionally, so it never returns the unit
matrix its docstring and the claim describe. -/
theorem get_eij_always_raises (i j size : ℕ) :
    get_eij i j size = Except.error
      "TypeError: JAX arrays are immutable and do not support in-place item assignment" :=
  rfl

/-- C3: whenever the autodiff oracle returns the function's value and a
vector-Jacobian-product closure that maps the `i`-th standard basis
covector of the output space to the analytically known `i`-th Jacobian
row, `ans_jacobian` returns the pair of (1) exactly `f x` and (2) an
array whose shape is the output's shape concatenated with the
argument's shape (output dimensions first) and whose row-major data is
the Jacobian rows stacked in output order. -/
theorem ans_jacobian_correct
    (make_vjp : (NDArray → NDArray) → NDArray → ((NDArray → NDArray) × NDArray))
    (f : NDArray → NDArray) (x : NDArray) (jacobian_row : ℕ → NDArray)
    (hans : (make_vjp f x).2 = f x)
    (hvjp : ∀ i < (f x).shape.prod,
      (make_vjp f x).1 ⟨(f x).shape, basisVec (f x).shape.prod i⟩ = jacobian_row i) :
    (ans_jacobian make_vjp f x).1 = f x ∧
    (ans_jacobian make_vjp f x).2.shape = (f x).shape ++ x.shape ∧
    (ans_jacobian make_vjp f x).2.data
      = ((List.range (f x).shape.prod).map (fun i => (jacobian_row i).data)).flatten := by
  refine ⟨by simp [ans_jacobian, hans], by simp [ans_jacobian, hans], ?_⟩
  simp only [ans_jacobian, standard_basis, List.map_map, hans]
  congr 1
  apply List.map_congr_left
  intro i hi
  simp only [Function.comp_apply]
  rw [hvjp i (List.mem_range.mp hi)]

/-- Witness for C3: `f(x) = x²` elementwise at `x = [3, -2]` (shape
`[2]`), with the exact reverse-mode oracle: the value is `[9, 4]` and
the Jacobian rows are those of `diag(6, -4)`. -/
theorem ans_jacobian_correct_witness :
    (ans_jacobian sqMakeVjp sqElem ⟨[2], [3, -2]⟩).1 = sqElem ⟨[2], [3, -2]⟩ ∧
    (ans_jacobian sqMakeVjp sqElem ⟨[2], [3, -2]⟩).2.shape
      = (sqElem ⟨[2], [3, -2]⟩).shape ++ [2] ∧
    (ans_jacobian sqMakeVjp sqElem ⟨[2], [3, -2]⟩).2.data
      = ((List.range (sqElem ⟨[2], [3, -2]⟩).shape.prod).map
          (fun i => (sqJacobianRow i).data)).flatten :=
  ans_jacobian_correct sqMakeVjp sqElem ⟨[2], [3, -2]⟩ sqJacobianRow rfl
    (by
      intro i hi
      have h2 : (sqElem ⟨[2], [3, -2]⟩).shape.prod = 2 := rfl
      rw [h2] at hi ⊢
      interval_cases i <;>
        · simp [sqMakeVjp, sqVjp, sqElem, sqJacobianRow, basisVec, List.range_succ]
          norm_num)

end Qoc
